import Mathlib

/-!
# JigsawWM — formal model and verification of the specification claims

The repository snapshot carries only user configuration scripts, examples and
READMEs; the implementation modules they import (`jigsawwm.jmk.core`,
`jigsawwm.tiler.tilers`, `jigsawwm.wm.manager`, …) are not part of the
snapshot.  The definitions below therefore model those missing components
from the specification (each such definition says so in its doc comment),
while facts that are visible in the configuration scripts (registered
bindings, constructor arguments such as `term=0.4`) are embedded directly
from those scripts.
-/

namespace JigsawWM

/-- A screen rectangle given as left/top corner plus width and height,
in pixels.  All quantities are natural numbers. -/
structure Rect where
  x : Nat
  y : Nat
  w : Nat
  h : Nat
deriving DecidableEq

/-- Modelled from the spec: the `dwindle` layout tiler of
`jigsawwm.tiler.tilers` (not in the snapshot; §4.6: "split dominant axis in
half; first window takes left (or top if portrait); recurse on the right
half, alternating axis").  A pure function of the workarea and the window
count. -/
def dwindle_layout_tiler : Rect → Nat → List Rect
  | _, 0 => []
  | r, 1 => [r]
  | r, n + 2 =>
    if r.h > r.w then
      -- portrait: first window takes the top half, recurse on the bottom
      let top : Rect := ⟨r.x, r.y, r.w, r.h / 2⟩
      let bottom : Rect := ⟨r.x, r.y + r.h / 2, r.w, r.h - r.h / 2⟩
      top :: dwindle_layout_tiler bottom (n + 1)
    else
      -- landscape: first window takes the left half, recurse on the right
      let left : Rect := ⟨r.x, r.y, r.w / 2, r.h⟩
      let right : Rect := ⟨r.x + r.w / 2, r.y, r.w - r.w / 2, r.h⟩
      left :: dwindle_layout_tiler right (n + 1)

/-! ## JMK input engine (spec §3, §4.2, §4.3)

The engine below is modelled from the spec, since `jigsawwm.jmk.core` is
not part of the snapshot; the configuration scripts under the snapshot
construct it via `register_layers`, `register_triggers` and
`JmkTapHold(tap=…, hold=…)` bindings. -/

/-- A virtual key code (spec §3, VKey).  The OS virtual-key numbering is
used for the named constants below. -/
abbrev VKey := Nat

/-- A keyboard event as seen by the OS input queue: key plus direction
(true = down). -/
abbrev KeyEvent := VKey × Bool

/-- Modelled from the spec: InputEvent (§3) — vkey, pressed, the synthetic
injection sentinel, and the monotonic millisecond timestamp. -/
structure InputEvent where
  vk : VKey
  pressed : Bool
  synthetic : Bool
  time : Nat
deriving DecidableEq

/-- Modelled from the spec: a layer action (§3) — either remap to a key
(`Send`) or invoke a registered callback (`SendFn`), identified here by a
numeric registry id. -/
inductive JmkAction where
  | send (vk : VKey)
  | call (fnId : Nat)
deriving DecidableEq

/-- Modelled from the spec: the hold side of a TapHold (§3) — an OS
modifier key, a layer index to push while held, or a callable. -/
inductive HoldAction where
  | mod (vk : VKey)
  | layer (idx : Nat)
  | call (fnId : Nat)
deriving DecidableEq

/-- Modelled from the spec: `TapHold` binding (§3) with its two millisecond
thresholds. -/
structure TapHold where
  tap : JmkAction
  hold : HoldAction
  term : Nat
  quickTapTerm : Nat
deriving DecidableEq

/-- Modelled from the spec: a layer binding (§3) — `JmkKey` (Send/SendFn)
or `JmkTapHold`. -/
inductive Binding where
  | key (act : JmkAction)
  | tapHold (th : TapHold)
deriving DecidableEq

/-- Modelled from the spec: the per-key TapHold state machine states
(§4.3).  `quickTap` is QUICK_TAP_PENDING with the key up; `quickTapHeld`
is the same rapid sequence with the key held down again. -/
inductive THState where
  | idle
  | pending (pressedAt : Nat)
  | held
  | quickTap (releasedAt : Nat)
  | quickTapHeld
deriving DecidableEq

/-- One per-key TapHold machine: the physical key, its binding parameters
and the current state. -/
structure THEntry where
  vk : VKey
  th : TapHold
  state : THState
deriving DecidableEq

/-- Modelled from the spec: a hotkey action (§4.2.2) — a synthetic chord
to emit, or a callable. -/
inductive HotkeyAction where
  | comb (vks : List VKey)
  | call (fnId : Nat)
deriving DecidableEq

/-- A registered hotkey: an unordered chord of keys plus its action. -/
structure Hotkey where
  chord : List VKey
  action : HotkeyAction
deriving DecidableEq

/-- A layer: a partial keymap, represented as an association list. -/
abbrev Layer := List (VKey × Binding)

/-- Modelled from the spec: the whole JMK core state (§3, §4.2) — the
layer table, the active layer stack (top first, base layer 0 at the
bottom), the per-key TapHold machines, the set of logically depressed
keys (post-remap), the hotkey table, the chord already fired (cleared when
a constituent key goes up), the physical keys whose release is absorbed
after a SendFn press, and the queue of callback ids posted to the daemon
thread. -/
structure JmkState where
  layers : List Layer
  stack : List Nat
  taps : List THEntry
  pressed : List VKey
  hotkeys : List Hotkey
  firedChord : Option (List VKey)
  absorbed : List VKey
  calls : List Nat
deriving DecidableEq

/-- The outcome of processing one inbound event (spec §4.2 interface):
the new engine state, the injected synthetic events, and whether the
physical event is suppressed. -/
structure StepOut where
  state : JmkState
  injected : List KeyEvent
  suppress : Bool
deriving DecidableEq

/-- Top-down lookup through the layer stack (spec §3, LayerStack: first
hit wins). -/
def stackLookup (layers : List Layer) : List Nat → VKey → Option Binding
  | [], _ => none
  | i :: rest, vk =>
    match (layers.get? i).bind (fun l => l.lookup vk) with
    | some b => some b
    | none => stackLookup layers rest vk

/-- Insert a key into the depressed set (no duplicates). -/
def insertKey (vk : VKey) (l : List VKey) : List VKey :=
  if vk ∈ l then l else l ++ [vk]

/-- Commit the hold of a TapHold (spec §4.3): inject the hold modifier
down, push the layer, or enqueue the callable. -/
def holdCommit (s : JmkState) (h : HoldAction) : JmkState × List KeyEvent :=
  match h with
  | .mod vk => ({ s with pressed := insertKey vk s.pressed }, [(vk, true)])
  | .layer i => ({ s with stack := i :: s.stack }, [])
  | .call f => ({ s with calls := s.calls ++ [f] }, [])

/-- Release a committed hold (spec §4.3 HELD + p↑): inject the hold
modifier up, or pop the layer. -/
def holdRelease (s : JmkState) (h : HoldAction) : JmkState × List KeyEvent :=
  match h with
  | .mod vk => ({ s with pressed := s.pressed.erase vk }, [(vk, false)])
  | .layer i => ({ s with stack := s.stack.erase i }, [])
  | .call _ => (s, [])

/-- Check the timers of one TapHold machine against the current clock
(spec §4.3: term expiry commits the hold; quick-tap expiry returns to
IDLE). -/
def tickEntry (now : Nat) (s : JmkState) (e : THEntry) :
    JmkState × THEntry × List KeyEvent :=
  match e.state with
  | .pending t =>
    if t + e.th.term ≤ now then
      let c := holdCommit s e.th.hold
      (c.1, { e with state := .held }, c.2)
    else (s, e, [])
  | .quickTap r =>
    if r + e.th.quickTapTerm ≤ now then (s, { e with state := .idle }, [])
    else (s, e, [])
  | _ => (s, e, [])

/-- Run the timer check over every TapHold machine. -/
def tickTaps (now : Nat) : List THEntry → JmkState →
    List THEntry × JmkState × List KeyEvent
  | [], s => ([], s, [])
  | e :: rest, s =>
    let r1 := tickEntry now s e
    let r2 := tickTaps now rest r1.1
    (r1.2.1 :: r2.1, r2.2.1, r1.2.2 ++ r2.2.2)

/-- Modelled from the spec (§4.3, §5): a single monotonic millisecond
clock, checked on each event, drives both TapHold timers. -/
def processTimers (now : Nat) (s : JmkState) : JmkState × List KeyEvent :=
  let r := tickTaps now s.taps s
  ({ r.2.1 with taps := r.1 }, r.2.2)

/-- The used-is-hold rule (spec §4.3, PENDING + k↓): a press of any other
physical key commits every pending TapHold before the new key is
processed. -/
def commitOtherPending (vk : VKey) : List THEntry → JmkState →
    List THEntry × JmkState × List KeyEvent
  | [], s => ([], s, [])
  | e :: rest, s =>
    match e.state with
    | .pending _ =>
      if e.vk = vk then
        let r := commitOtherPending vk rest s
        (e :: r.1, r.2.1, r.2.2)
      else
        let c := holdCommit s e.th.hold
        let r := commitOtherPending vk rest c.1
        ({ e with state := .held } :: r.1, r.2.1, c.2 ++ r.2.2)
    | _ =>
      let r := commitOtherPending vk rest s
      (e :: r.1, r.2.1, r.2.2)

/-- Unordered set equality of two chords. -/
def sameSet (a b : List VKey) : Bool :=
  a.all (fun x => b.contains x) && b.all (fun x => a.contains x)

/-- Find a registered hotkey whose chord equals the depressed set
(spec §4.2.2). -/
def findChord (hotkeys : List Hotkey) (pressed : List VKey) : Option Hotkey :=
  hotkeys.find? (fun hk => sameSet hk.chord pressed)

/-- The synthetic burst for a target chord: downs in order, ups in
reverse order (spec §5 ordering guarantee). -/
def combEvents (vks : List VKey) : List KeyEvent :=
  vks.map (fun k => (k, true)) ++ (vks.reverse.map (fun k => (k, false)))

/-- The events of a fired hotkey action. -/
def actionEvents (s : JmkState) (a : HotkeyAction) : JmkState × List KeyEvent :=
  match a with
  | .comb vks => (s, combEvents vks)
  | .call f => ({ s with calls := s.calls ++ [f] }, [])

/-- Fire a hotkey (spec §4.2.2): release the depressed chord keys other
than the triggering press, then emit the action, and remember the chord
so it does not fire again before a constituent key goes up. -/
def fireHotkey (s : JmkState) (hk : Hotkey) (trigger : VKey) :
    JmkState × List KeyEvent :=
  let rels : List KeyEvent := (hk.chord.filter (fun k => k ≠ trigger)).map
    (fun k => (k, false))
  let r := actionEvents s hk.action
  ({ r.1 with firedChord := some hk.chord }, rels ++ r.2)

/-- Chord detection after layer resolution of a press (spec §4.2.2).
Returns the new state, the injected events and whether the press was
consumed by a hotkey. -/
def chordCheck (s : JmkState) (trigger : VKey) :
    JmkState × List KeyEvent × Bool :=
  match findChord s.hotkeys s.pressed with
  | some hk =>
    if s.firedChord = some hk.chord then (s, [], false)
    else
      let r := fireHotkey s hk trigger
      (r.1, r.2, true)
  | none => (s, [], false)

/-- Bookkeeping for a logical key release: remove it from the depressed
set and re-arm the hotkey table when a constituent of the fired chord
goes up (spec §4.2.2). -/
def logicalRelease (s : JmkState) (k : VKey) : JmkState :=
  let s1 := { s with pressed := s.pressed.erase k }
  match s1.firedChord with
  | some c => if k ∈ c then { s1 with firedChord := none } else s1
  | none => s1

/-- The TapHold machine of a key, created fresh in IDLE when absent. -/
def getTap (s : JmkState) (vk : VKey) (th : TapHold) : THEntry :=
  match s.taps.find? (fun e => e.vk = vk) with
  | some e => e
  | none => ⟨vk, th, .idle⟩

/-- Store back the TapHold machine of a key. -/
def setTap (s : JmkState) (e : THEntry) : JmkState :=
  { s with taps :=
      if s.taps.any (fun x => x.vk = e.vk) then
        s.taps.map (fun x => if x.vk = e.vk then e else x)
      else s.taps ++ [e] }

/-- Commit a tap (spec §4.3 PENDING + p↑): inject tap down then tap up,
or enqueue the tap callable once. -/
def tapStrike (s : JmkState) (a : JmkAction) : JmkState × List KeyEvent :=
  match a with
  | .send vk => (s, [(vk, true), (vk, false)])
  | .call f => ({ s with calls := s.calls ++ [f] }, [])

/-- Emit one direction of the tap action during a quick-tap sequence. -/
def tapEmit (s : JmkState) (a : JmkAction) (pressed : Bool) :
    JmkState × List KeyEvent :=
  match a with
  | .send vk => (s, [(vk, pressed)])
  | .call f => if pressed then ({ s with calls := s.calls ++ [f] }, []) else (s, [])

/-- Modelled from the spec: the TapHold transition table (§4.3) for a
physical press or release of the dual-role key itself.  Timer expiries
have already been applied by `processTimers`. -/
def tapHoldStep (s : JmkState) (vk : VKey) (th : TapHold) (prs : Bool)
    (now : Nat) : JmkState × List KeyEvent :=
  let e := getTap s vk th
  match e.state, prs with
  | .idle, true => (setTap s { e with state := .pending now }, [])
  | .idle, false => (s, [])
  | .pending _, true => (s, [])
  | .pending _, false =>
    let r := tapStrike s e.th.tap
    (setTap r.1 { e with state := .quickTap now }, r.2)
  | .held, true => (s, [])
  | .held, false =>
    let r := holdRelease s e.th.hold
    (setTap r.1 { e with state := .idle }, r.2)
  | .quickTap _, true =>
    let r := tapEmit s e.th.tap true
    (setTap r.1 { e with state := .quickTapHeld }, r.2)
  | .quickTap _, false => (s, [])
  | .quickTapHeld, true =>
    tapEmit s e.th.tap true
  | .quickTapHeld, false =>
    let r := tapEmit s e.th.tap false
    (setTap r.1 { e with state := .quickTap now }, r.2)

/-- Modelled from the spec: the per-event resolution order of the JMK
core (§4.2.1): synthetic events are forwarded untouched with no state
transition; otherwise the timers run, a press commits other pending
TapHolds (used-is-hold), the key is resolved top-down through the layer
stack, and chord detection runs after layer resolution of a press. -/
def jmkStep (s : JmkState) (ev : InputEvent) : StepOut :=
  if ev.synthetic then ⟨s, [], false⟩
  else
    let tr := processTimers ev.time s
    let s1 := tr.1
    let tout := tr.2
    if ev.pressed then
      let co := commitOtherPending ev.vk s1.taps s1
      let cout := co.2.2
      let s2 := { co.2.1 with taps := co.1 }
      match stackLookup s2.layers s2.stack ev.vk with
      | some (.tapHold th) =>
        let r := tapHoldStep s2 ev.vk th true ev.time
        ⟨r.1, tout ++ cout ++ r.2, true⟩
      | some (.key a) =>
        match a with
        | .send k =>
          let s3 := { s2 with pressed := insertKey k s2.pressed }
          let r := chordCheck s3 k
          ⟨r.1, tout ++ cout ++ [(k, true)] ++ r.2.1, true⟩
        | .call f =>
          let s3 := { s2 with calls := s2.calls ++ [f],
                              absorbed := insertKey ev.vk s2.absorbed }
          ⟨s3, tout ++ cout, true⟩
      | none =>
        let s3 := { s2 with pressed := insertKey ev.vk s2.pressed }
        let r := chordCheck s3 ev.vk
        ⟨r.1, tout ++ cout ++ r.2.1, r.2.2⟩
    else
      match stackLookup s1.layers s1.stack ev.vk with
      | some (.tapHold th) =>
        let r := tapHoldStep s1 ev.vk th false ev.time
        ⟨r.1, tout ++ r.2, true⟩
      | some (.key a) =>
        match a with
        | .send k =>
          let s3 := logicalRelease s1 k
          ⟨s3, tout ++ [(k, false)], true⟩
        | .call _ =>
          if ev.vk ∈ s1.absorbed then
            ⟨{ s1 with absorbed := s1.absorbed.erase ev.vk }, tout, true⟩
          else ⟨s1, tout, false⟩
      | none =>
        let s3 := logicalRelease s1 ev.vk
        ⟨s3, tout, false⟩

/-- Run the engine over a trace, collecting per-event injections and
suppression decisions. -/
def jmkRun (s : JmkState) : List InputEvent → JmkState × List (List KeyEvent × Bool)
  | [] => (s, [])
  | e :: rest =>
    let o := jmkStep s e
    let r := jmkRun o.state rest
    (r.1, (o.injected, o.suppress) :: r.2)

/-- Reassemble the net effect on the OS input queue (spec §4.1 contract):
for each physical event, the injected burst followed by the physical event
itself when it was not suppressed. -/
def streamOf : List InputEvent → List (List KeyEvent × Bool) → List KeyEvent
  | [], _ => []
  | _, [] => []
  | e :: es, (inj, sup) :: rs =>
    inj ++ (if sup then [] else [(e.vk, e.pressed)]) ++ streamOf es rs

/-- The OS-visible event stream produced by a trace. -/
def osStream (s : JmkState) (evs : List InputEvent) : List KeyEvent :=
  streamOf evs (jmkRun s evs).2

/-- A fresh engine whose base layer holds a single TapHold binding for the
physical key `p` — the shape produced by `register_layers` for bindings
such as `Vk.CAPITAL: JmkTapHold(tap=Vk.ESCAPE, hold=Vk.LCONTROL)` in the
configuration scripts. -/
def thInit (p : VKey) (th : TapHold) : JmkState :=
  ⟨[[(p, .tapHold th)]], [0], [], [], [], none, [], []⟩

/-- The same engine after its TapHold machine reached state `st` with
depressed key set `prs`. -/
def thAt (p : VKey) (th : TapHold) (st : THState) (prs : List VKey) : JmkState :=
  ⟨[[(p, .tapHold th)]], [0], [⟨p, th, st⟩], prs, [], none, [], []⟩

/-- Embedded from the source configuration: the hotkey
`("Win+q", "LAlt+F4")` registered through `register_triggers` in
src/unnamed/part_004 line 71 and src/unnamed/part_005 line 112 (also
`self.hotkey("Win+q", "LAlt+F4")` in src/unnamed/part_000 line 40).
Virtual-key codes: WIN = 91, Q = 81, LALT = 164, F4 = 115. -/
def winQHotkey : Hotkey := ⟨[91, 81], .comb [164, 115]⟩

/-- A fresh engine with only the Win+q hotkey registered and no layer
bindings. -/
def winQState : JmkState := ⟨[], [0], [], [], [winQHotkey], none, [], []⟩

/-- Embedded from the source configuration: the fractional `term`
arguments passed to `JmkTapHold` — `term=0.4` in
`Vk.XBUTTON1: JmkTapHold(tap=Vk.XBUTTON1, hold=2, term=0.4)`
(src/unnamed/part_005 line 40) and `term=0.5` in
`Vk.LBUTTON: JmkTapHold(on_tap=ctrl_w, on_hold_down=ctrl_shift_t, term=0.5)`
(src/examples/jmk.pyw line 70).  The values are denominated in seconds. -/
def configuredTermValues : List ℚ := [0.4, 0.5]

/-! ## Tiling window manager (spec §3, §4.6, §4.7)

The window-manager engine is modelled from the spec, since
`jigsawwm.wm.manager` is not part of the snapshot; the configuration
scripts bind its commands (`next_window`, `swap_next`, `set_master`,
`roll_next`, `toggle_tilable`, `switch_to_workspace`, `move_to_workspace`,
`move_to_next_monitor`, …) to hotkeys. -/

/-- A managed window: the native handle is the identity; the rectangle is
advisory; non-tilable and minimized windows keep their list position but
are skipped by layout (spec §3). -/
structure ManagedWindow where
  handle : Nat
  rect : Rect
  tilable : Bool
  minimized : Bool
deriving DecidableEq

/-- An OS window-positioning call issued while realizing a layout. -/
inductive OsCall where
  | setWindowPos (handle : Nat) (r : Rect)
deriving DecidableEq

/-- The number of windows participating in layout: tilable and not
minimized (spec §3 invariants). -/
def tilableCount (ws : List ManagedWindow) : Nat :=
  ws.countP (fun w => w.tilable && !w.minimized)

/-- Modelled from the spec (§4.7 idempotence and loop prevention): walk
the windowlist against the computed rectangles; non-tilable and minimized
windows are skipped; a tiled window whose rectangle already equals its
target produces no OS call, otherwise one `setWindowPos` is issued and
the cached rectangle updated. -/
def placeWindows : List ManagedWindow → List Rect →
    List ManagedWindow × List OsCall
  | [], _ => ([], [])
  | w :: ws, rects =>
    if w.tilable && !w.minimized then
      match rects with
      | [] =>
        let r := placeWindows ws []
        (w :: r.1, r.2)
      | rc :: rs =>
        let r := placeWindows ws rs
        if w.rect = rc then (w :: r.1, r.2)
        else ({ w with rect := rc } :: r.1, .setWindowPos w.handle rc :: r.2)
    else
      let r := placeWindows ws rects
      (w :: r.1, r.2)

/-- Modelled from the spec: apply a layout to a windowlist — compute the
target rectangles from the workarea and the number of tiling windows,
then place every window (spec §4.6, §4.7). -/
def applyLayout (tiler : Rect → Nat → List Rect) (wa : Rect)
    (ws : List ManagedWindow) : List ManagedWindow × List OsCall :=
  placeWindows ws (tiler wa (tilableCount ws))

/-- A workspace: an ordered windowlist with a designated active index
(spec §3). -/
structure Workspace where
  windows : List ManagedWindow
  activeIdx : Nat
deriving DecidableEq

/-- A monitor: its ordered workspaces and the active workspace index
(spec §3). -/
structure Monitor where
  workspaces : List Workspace
  activeWs : Nat
deriving DecidableEq

/-- The per-virtual-desktop window-manager state: the monitors and the
active monitor index (spec §3, WmState). -/
structure WmState where
  monitors : List Monitor
  activeMon : Nat
deriving DecidableEq

/-- The handles of the windows of one workspace. -/
def wsHandles (ws : Workspace) : List Nat := ws.windows.map (fun w => w.handle)

/-- The handles of all windows of one monitor. -/
def monHandles (m : Monitor) : List Nat := (m.workspaces.map wsHandles).flatten

/-- Every window handle recorded anywhere in the state, with multiplicity. -/
def allHandles (s : WmState) : List Nat := (s.monitors.map monHandles).flatten

/-- Replace the element at one position by the image under `f`; out of
range leaves the list unchanged. -/
def modifyAt (f : α → α) : List α → Nat → List α
  | [], _ => []
  | a :: t, 0 => f a :: t
  | a :: t, n + 1 => a :: modifyAt f t n

/-- Apply a workspace transformation to the active workspace of the
active monitor. -/
def modifyActiveWorkspace (s : WmState) (f : Workspace → Workspace) : WmState :=
  { s with monitors := (modifyAt (fun m =>
      { m with workspaces := modifyAt f m.workspaces m.activeWs })
      s.monitors s.activeMon) }

/-- Swap the elements at positions i and i+1; out of range leaves the
list unchanged. -/
def swapAdj : List α → Nat → List α
  | a :: b :: t, 0 => b :: a :: t
  | a :: t, n + 1 => a :: swapAdj t n
  | l, _ => l

/-- Swap the element at position i (i positive) with the head. -/
def swapWithHead : List α → Nat → List α
  | a :: t, i + 1 =>
    match t.get? i with
    | some b => b :: t.set i a
    | none => a :: t
  | l, _ => l

/-- Command next_window (spec §4.7): move the active index forward by one
modulo the list length; the windowlist itself is untouched. -/
def nextWindowWs (ws : Workspace) : Workspace :=
  if ws.windows.isEmpty then ws
  else { ws with activeIdx := (ws.activeIdx + 1) % ws.windows.length }

/-- Command prev_window (spec §4.7). -/
def prevWindowWs (ws : Workspace) : Workspace :=
  if ws.windows.isEmpty then ws
  else { ws with activeIdx :=
    (ws.activeIdx + ws.windows.length - 1) % ws.windows.length }

/-- Command swap_next (spec §4.7): swap the active window with its
successor; focus follows. -/
def swapNextWs (ws : Workspace) : Workspace :=
  if ws.activeIdx + 1 < ws.windows.length then
    { ws with windows := swapAdj ws.windows ws.activeIdx
              activeIdx := ws.activeIdx + 1 }
  else ws

/-- Command swap_prev (spec §4.7). -/
def swapPrevWs (ws : Workspace) : Workspace :=
  if 0 < ws.activeIdx ∧ ws.activeIdx < ws.windows.length then
    { ws with windows := swapAdj ws.windows (ws.activeIdx - 1)
              activeIdx := ws.activeIdx - 1 }
  else ws

/-- Command set_master (spec §4.7): swap the active window with slot 0;
when it already is slot 0, swap with slot 1. -/
def setMasterWs (ws : Workspace) : Workspace :=
  if ws.activeIdx = 0 then { ws with windows := swapAdj ws.windows 0 }
  else { ws with windows := swapWithHead ws.windows ws.activeIdx
                 activeIdx := 0 }

/-- Command roll_next (spec §4.7): rotate the whole list by one. -/
def rollNextWs (ws : Workspace) : Workspace :=
  { ws with windows := ws.windows.rotate 1 }

/-- Command roll_prev (spec §4.7). -/
def rollPrevWs (ws : Workspace) : Workspace :=
  { ws with windows := ws.windows.rotate (ws.windows.length - 1) }

/-- Command toggle_tilable (spec §4.7): flip the tilable flag of the
active window. -/
def toggleTilableWs (ws : Workspace) : Workspace :=
  { ws with windows := (modifyAt (fun w => { w with tilable := !w.tilable })
      ws.windows ws.activeIdx) }

/-- Command switch_to_workspace (spec §4.7): change the active workspace
of the active monitor; the windowlists are untouched (hiding is realized
by off-screen moves, not by reassignment). -/
def switchToWorkspace (s : WmState) (i : Nat) : WmState :=
  { s with monitors := (modifyAt (fun m =>
      if i < m.workspaces.length then { m with activeWs := i } else m)
      s.monitors s.activeMon) }

/-- Command move_to_workspace (spec §4.7): remove the active window from
the active workspace of a monitor and append it to workspace j of the
same monitor. -/
def moveWindowToWorkspace (m : Monitor) (j : Nat) : Monitor :=
  if j = m.activeWs then m
  else
    match m.workspaces.get? m.activeWs with
    | none => m
    | some ws =>
      match ws.windows.get? ws.activeIdx with
      | none => m
      | some w =>
        if j < m.workspaces.length then
          { m with workspaces :=
              (modifyAt (fun x => { x with windows := x.windows ++ [w] })
                (modifyAt (fun x =>
                  { x with windows := x.windows.eraseIdx x.activeIdx
                           activeIdx := 0 })
                  m.workspaces m.activeWs) j) }
        else m

/-- The active window of a monitor, when any. -/
def grabActiveWindow (m : Monitor) : Option ManagedWindow :=
  (m.workspaces.get? m.activeWs).bind (fun ws => ws.windows.get? ws.activeIdx)

/-- Drop the active window from the active workspace of a monitor. -/
def removeActiveWindow (m : Monitor) : Monitor :=
  { m with workspaces := (modifyAt (fun x =>
      { x with windows := x.windows.eraseIdx x.activeIdx, activeIdx := 0 })
      m.workspaces m.activeWs) }

/-- Append a window to the active workspace of a monitor. -/
def appendWindowToActive (m : Monitor) (w : ManagedWindow) : Monitor :=
  { m with workspaces := (modifyAt (fun x =>
      { x with windows := x.windows ++ [w] }) m.workspaces m.activeWs) }

/-- Commands move_to_next_monitor / move_to_prev_monitor (spec §4.7):
reassign the active window to the destination monitor. -/
def moveWindowToMonitor (s : WmState) (dst : Nat) : WmState :=
  if dst = s.activeMon then s
  else
    match s.monitors.get? s.activeMon with
    | none => s
    | some m =>
      match grabActiveWindow m with
      | none => s
      | some w =>
        if dst < s.monitors.length then
          { s with monitors :=
              (modifyAt (fun mm => appendWindowToActive mm w)
                (modifyAt removeActiveWindow s.monitors s.activeMon) dst) }
        else s

/-- The monitor right of the active one, cyclically. -/
def nextMonitorIdx (s : WmState) : Nat :=
  (s.activeMon + 1) % (max 1 s.monitors.length)

/-- The monitor left of the active one, cyclically. -/
def prevMonitorIdx (s : WmState) : Nat :=
  (s.activeMon + max 1 s.monitors.length - 1) % (max 1 s.monitors.length)

/-- A window event: a new manageable window appears (spec §4.7 rule
application) — recorded once in the active workspace of the active
monitor, unless the handle is already tracked. -/
def createWindow (s : WmState) (h : Nat) : WmState :=
  if h ∈ allHandles s then s
  else { s with monitors := (modifyAt
      (fun m => appendWindowToActive m ⟨h, ⟨0, 0, 0, 0⟩, true, false⟩)
      s.monitors s.activeMon) }

/-- A window event: the handle vanished — the window is dropped from
every workspace (spec §3 lifecycle). -/
def destroyWindow (s : WmState) (h : Nat) : WmState :=
  { s with monitors := (s.monitors.map (fun m =>
      { m with workspaces := (m.workspaces.map (fun x =>
          { x with windows := x.windows.filter (fun w => w.handle ≠ h) })) })) }

/-- The command surface of the WM controller (spec §4.7) together with
the window events that mutate the windowlists. -/
inductive WmCmd where
  | nextWindow
  | prevWindow
  | swapNext
  | swapPrev
  | setMaster
  | rollNext
  | rollPrev
  | toggleTilable
  | switchWs (i : Nat)
  | moveToWs (j : Nat)
  | nextMonitor
  | prevMonitor
  | moveToNextMonitor
  | moveToPrevMonitor
  | arrangeAllMonitors
  | winCreated (h : Nat)
  | winDestroyed (h : Nat)
deriving DecidableEq

/-- Modelled from the spec: one WM command or window event applied to the
state (spec §4.7 command table). -/
def wmStep (s : WmState) : WmCmd → WmState
  | .nextWindow => modifyActiveWorkspace s nextWindowWs
  | .prevWindow => modifyActiveWorkspace s prevWindowWs
  | .swapNext => modifyActiveWorkspace s swapNextWs
  | .swapPrev => modifyActiveWorkspace s swapPrevWs
  | .setMaster => modifyActiveWorkspace s setMasterWs
  | .rollNext => modifyActiveWorkspace s rollNextWs
  | .rollPrev => modifyActiveWorkspace s rollPrevWs
  | .toggleTilable => modifyActiveWorkspace s toggleTilableWs
  | .switchWs i => switchToWorkspace s i
  | .moveToWs j =>
      { s with monitors := (modifyAt (fun m => moveWindowToWorkspace m j)
          s.monitors s.activeMon) }
  | .nextMonitor => { s with activeMon := nextMonitorIdx s }
  | .prevMonitor => { s with activeMon := prevMonitorIdx s }
  | .moveToNextMonitor => moveWindowToMonitor s (nextMonitorIdx s)
  | .moveToPrevMonitor => moveWindowToMonitor s (prevMonitorIdx s)
  | .arrangeAllMonitors => s
  | .winCreated h => createWindow s h
  | .winDestroyed h => destroyWindow s h

/-- Run a command sequence. -/
def wmRun (s : WmState) : List WmCmd → WmState
  | [] => s
  | c :: cs => wmRun (wmStep s c) cs

/-- Structural well-formedness of the WM state: the active monitor index
is in range and every monitor has its active workspace index in range
(spec §3: workspaces are created at monitor registration, default 4, and
the active workspace index is always valid). -/
def wfState (s : WmState) : Prop :=
  s.activeMon < s.monitors.length ∧
  ∀ m ∈ s.monitors, m.activeWs < m.workspaces.length

/-! ## Theorems: JMK claims -/

/-- Unfolding lemma for running one event followed by the rest of the
trace. -/
theorem jmkRun_cons (s : JmkState) (e : InputEvent) (es : List InputEvent) :
    jmkRun s (e :: es) =
      ((jmkRun (jmkStep s e).state es).1,
        ((jmkStep s e).injected, (jmkStep s e).suppress) ::
          (jmkRun (jmkStep s e).state es).2) := rfl

/-- Step lemma: the initial press of a TapHold key is buffered (no
injection, physical press suppressed) and the machine enters PENDING. -/
theorem jmkStep_th_press (p : VKey) (th : TapHold) (t0 : Nat) :
    jmkStep (thInit p th) ⟨p, true, false, t0⟩ =
      ⟨thAt p th (.pending t0) [], [], true⟩ := by
  simp [jmkStep, processTimers, tickTaps, tickEntry, commitOtherPending,
    stackLookup, tapHoldStep, getTap, setTap, tapStrike, tapEmit, holdCommit,
    holdRelease, insertKey, chordCheck, findChord, sameSet, logicalRelease,
    thInit, thAt, List.lookup]

/-- C1: for every TapHold binding with tap key T and hold modifier H (or
hold layer i), a press and release of the physical key entirely within
term_ms emits exactly T-down then T-up with both physical events
suppressed; a press held until term_ms expired and then released emits
exactly H-down then H-up in the modifier case, and pushes the layer at
hold-commit and pops it at the release in the layer case (with nothing
injected). -/
theorem c1_taphold_round_trip (p T H : VKey) (i : Nat) (term qt t0 t1 : Nat) :
    (t1 < t0 + term →
      (jmkRun (thInit p ⟨.send T, .mod H, term, qt⟩)
        [⟨p, true, false, t0⟩, ⟨p, false, false, t1⟩]).2 =
        [([], true), ([(T, true), (T, false)], true)]) ∧
    (t0 + term ≤ t1 →
      (jmkRun (thInit p ⟨.send T, .mod H, term, qt⟩)
        [⟨p, true, false, t0⟩, ⟨p, false, false, t1⟩]).2 =
        [([], true), ([(H, true), (H, false)], true)]) ∧
    (t0 + term ≤ t1 →
      (processTimers t1 (jmkStep (thInit p ⟨.send T, .layer i, term, qt⟩)
          ⟨p, true, false, t0⟩).state).1.stack = [i, 0] ∧
      (jmkRun (thInit p ⟨.send T, .layer i, term, qt⟩)
        [⟨p, true, false, t0⟩, ⟨p, false, false, t1⟩]).1.stack = [0] ∧
      (jmkRun (thInit p ⟨.send T, .layer i, term, qt⟩)
        [⟨p, true, false, t0⟩, ⟨p, false, false, t1⟩]).2 =
        [([], true), ([], true)]) := by
  refine ⟨fun h => ?_, fun h => ?_, fun h => ?_⟩
  · have hnot : ¬ (t0 + term ≤ t1) := by omega
    rw [jmkRun_cons, jmkStep_th_press]
    have e2 : jmkStep (thAt p ⟨.send T, .mod H, term, qt⟩ (.pending t0) [])
        ⟨p, false, false, t1⟩ =
        ⟨thAt p ⟨.send T, .mod H, term, qt⟩ (.quickTap t1) [],
          [(T, true), (T, false)], true⟩ := by
      simp [jmkStep, processTimers, tickTaps, tickEntry, commitOtherPending,
        stackLookup, tapHoldStep, getTap, setTap, tapStrike, tapEmit,
        holdCommit, holdRelease, insertKey, chordCheck, findChord, sameSet,
        logicalRelease, thAt, List.lookup, hnot]
    rw [jmkRun_cons, e2]; rfl
  · rw [jmkRun_cons, jmkStep_th_press]
    have e2 : jmkStep (thAt p ⟨.send T, .mod H, term, qt⟩ (.pending t0) [])
        ⟨p, false, false, t1⟩ =
        ⟨thAt p ⟨.send T, .mod H, term, qt⟩ .idle [],
          [(H, true), (H, false)], true⟩ := by
      simp [jmkStep, processTimers, tickTaps, tickEntry, commitOtherPending,
        stackLookup, tapHoldStep, getTap, setTap, tapStrike, tapEmit,
        holdCommit, holdRelease, insertKey, chordCheck, findChord, sameSet,
        logicalRelease, thAt, List.lookup, List.erase, h]
    rw [jmkRun_cons, e2]; rfl
  · rcases i with _ | j <;>
    · refine ⟨?_, ?_, ?_⟩ <;>
      simp [jmkRun_cons, jmkStep_th_press, jmkRun, jmkStep, processTimers,
        tickTaps, tickEntry, commitOtherPending, stackLookup, tapHoldStep,
        getTap, setTap, tapStrike, tapEmit, holdCommit, holdRelease, insertKey,
        chordCheck, findChord, sameSet, logicalRelease, thInit, thAt,
        List.lookup, List.erase, h]

/-- Witness for C1 at scenario S1 of the spec: CAPITAL (20) bound to
TapHold(tap=ESCAPE 27, hold=LCONTROL 162, term=200, quick_tap=120),
pressed at 0 ms and released at 50 ms, emits ESCAPE down then up with
both physical events suppressed. -/
theorem c1_taphold_round_trip_witness :
    (jmkRun (thInit 20 ⟨.send 27, .mod 162, 200, 120⟩)
      [⟨20, true, false, 0⟩, ⟨20, false, false, 50⟩]).2 =
      [([], true), ([(27, true), (27, false)], true)] :=
  (c1_taphold_round_trip 20 27 162 1 200 120 0 50).1 (by decide)

/-- C2: with a TapHold binding in PENDING, the press of any other key k
commits the hold first and then forwards k; the trace p-down, k-down,
k-up, p-up therefore reaches the OS as exactly H-down, k-down, k-up,
H-up in that order. -/
theorem c2_used_is_hold (p T H k : VKey) (term qt t0 t1 t2 t3 : Nat)
    (hk : k ≠ p) (hkH : k ≠ H) (h1 : t1 < t0 + term) :
    (jmkRun (thInit p ⟨.send T, .mod H, term, qt⟩)
      [⟨p, true, false, t0⟩, ⟨k, true, false, t1⟩,
       ⟨k, false, false, t2⟩, ⟨p, false, false, t3⟩]).2 =
      [([], true), ([(H, true)], false), ([], false), ([(H, false)], true)] ∧
    osStream (thInit p ⟨.send T, .mod H, term, qt⟩)
      [⟨p, true, false, t0⟩, ⟨k, true, false, t1⟩,
       ⟨k, false, false, t2⟩, ⟨p, false, false, t3⟩] =
      [(H, true), (k, true), (k, false), (H, false)] := by
  have hn1 : ¬ (t0 + term ≤ t1) := by omega
  have hbeq : (k == p) = false := beq_eq_false_iff_ne.mpr hk
  have hbeq2 : (k == H) = false := beq_eq_false_iff_ne.mpr hkH
  have hbeq3 : (H == k) = false := beq_eq_false_iff_ne.mpr (Ne.symm hkH)
  have e2 : jmkStep (thAt p ⟨.send T, .mod H, term, qt⟩ (.pending t0) [])
      ⟨k, true, false, t1⟩ =
      ⟨thAt p ⟨.send T, .mod H, term, qt⟩ .held [H, k], [(H, true)], false⟩ := by
    simp [jmkStep, processTimers, tickTaps, tickEntry, commitOtherPending,
      stackLookup, tapHoldStep, getTap, setTap, tapStrike, tapEmit, holdCommit,
      holdRelease, insertKey, chordCheck, findChord, sameSet, logicalRelease,
      thAt, List.lookup, hn1, hk, Ne.symm hk, hbeq, hkH, hbeq2, hbeq3]
  have e3 : jmkStep (thAt p ⟨.send T, .mod H, term, qt⟩ .held [H, k])
      ⟨k, false, false, t2⟩ =
      ⟨thAt p ⟨.send T, .mod H, term, qt⟩ .held [H], [], false⟩ := by
    simp [jmkStep, processTimers, tickTaps, tickEntry, commitOtherPending,
      stackLookup, tapHoldStep, getTap, setTap, tapStrike, tapEmit, holdCommit,
      holdRelease, insertKey, chordCheck, findChord, sameSet, logicalRelease,
      thAt, List.lookup, List.erase, hk, Ne.symm hk, hbeq, hkH, hbeq2, hbeq3]
  have e4 : jmkStep (thAt p ⟨.send T, .mod H, term, qt⟩ .held [H])
      ⟨p, false, false, t3⟩ =
      ⟨thAt p ⟨.send T, .mod H, term, qt⟩ .idle [], [(H, false)], true⟩ := by
    simp [jmkStep, processTimers, tickTaps, tickEntry, commitOtherPending,
      stackLookup, tapHoldStep, getTap, setTap, tapStrike, tapEmit, holdCommit,
      holdRelease, insertKey, chordCheck, findChord, sameSet, logicalRelease,
      thAt, List.lookup, List.erase]
  constructor
  · rw [jmkRun_cons, jmkStep_th_press]
    rw [jmkRun_cons, e2]; rw [jmkRun_cons, e3]; rw [jmkRun_cons, e4]; rfl
  · unfold osStream
    rw [jmkRun_cons, jmkStep_th_press]
    rw [jmkRun_cons, e2]; rw [jmkRun_cons, e3]; rw [jmkRun_cons, e4]; rfl

/-- Witness for C2 at scenario S2 of the spec: CAPITAL (20) with
TapHold(tap=ESCAPE 27, hold=LCONTROL 162, term=200), K (75) pressed at
80 ms and released at 90 ms inside the pending window, CAPITAL released
at 250 ms: the OS sees LCONTROL down, K down, K up, LCONTROL up. -/
theorem c2_used_is_hold_witness :
    osStream (thInit 20 ⟨.send 27, .mod 162, 200, 120⟩)
      [⟨20, true, false, 0⟩, ⟨75, true, false, 80⟩,
       ⟨75, false, false, 90⟩, ⟨20, false, false, 250⟩] =
      [(162, true), (75, true), (75, false), (162, false)] :=
  (c2_used_is_hold 20 27 162 75 200 120 0 80 90 250
    (by decide) (by decide) (by decide)).2

/-- C5: after a completed tap, a second press of the TapHold key within
quick_tap_term_ms emits the tap immediately and disables hold resolution
for that press, so the trace tap, quick re-press, release emits exactly
T-down, T-up, T-down, T-up no matter how long the second press is held
(the release time t3 is unconstrained). -/
theorem c5_quick_tap (p T H : VKey) (term qt t0 t1 t2 t3 : Nat)
    (h1 : t1 < t0 + term) (h2 : t2 < t1 + qt) :
    (jmkRun (thInit p ⟨.send T, .mod H, term, qt⟩)
      [⟨p, true, false, t0⟩, ⟨p, false, false, t1⟩,
       ⟨p, true, false, t2⟩, ⟨p, false, false, t3⟩]).2 =
      [([], true), ([(T, true), (T, false)], true),
       ([(T, true)], true), ([(T, false)], true)] ∧
    osStream (thInit p ⟨.send T, .mod H, term, qt⟩)
      [⟨p, true, false, t0⟩, ⟨p, false, false, t1⟩,
       ⟨p, true, false, t2⟩, ⟨p, false, false, t3⟩] =
      [(T, true), (T, false), (T, true), (T, false)] := by
  have hn1 : ¬ (t0 + term ≤ t1) := by omega
  have hn2 : ¬ (t1 + qt ≤ t2) := by omega
  have e2 : jmkStep (thAt p ⟨.send T, .mod H, term, qt⟩ (.pending t0) [])
      ⟨p, false, false, t1⟩ =
      ⟨thAt p ⟨.send T, .mod H, term, qt⟩ (.quickTap t1) [],
        [(T, true), (T, false)], true⟩ := by
    simp [jmkStep, processTimers, tickTaps, tickEntry, commitOtherPending,
      stackLookup, tapHoldStep, getTap, setTap, tapStrike, tapEmit, holdCommit,
      holdRelease, insertKey, chordCheck, findChord, sameSet, logicalRelease,
      thAt, List.lookup, hn1]
  have e3 : jmkStep (thAt p ⟨.send T, .mod H, term, qt⟩ (.quickTap t1) [])
      ⟨p, true, false, t2⟩ =
      ⟨thAt p ⟨.send T, .mod H, term, qt⟩ .quickTapHeld [], [(T, true)], true⟩ := by
    simp [jmkStep, processTimers, tickTaps, tickEntry, commitOtherPending,
      stackLookup, tapHoldStep, getTap, setTap, tapStrike, tapEmit, holdCommit,
      holdRelease, insertKey, chordCheck, findChord, sameSet, logicalRelease,
      thAt, List.lookup, hn2]
  have e4 : jmkStep (thAt p ⟨.send T, .mod H, term, qt⟩ .quickTapHeld [])
      ⟨p, false, false, t3⟩ =
      ⟨thAt p ⟨.send T, .mod H, term, qt⟩ (.quickTap t3) [], [(T, false)], true⟩ := by
    simp [jmkStep, processTimers, tickTaps, tickEntry, commitOtherPending,
      stackLookup, tapHoldStep, getTap, setTap, tapStrike, tapEmit, holdCommit,
      holdRelease, insertKey, chordCheck, findChord, sameSet, logicalRelease,
      thAt, List.lookup]
  constructor
  · rw [jmkRun_cons, jmkStep_th_press]
    rw [jmkRun_cons, e2]; rw [jmkRun_cons, e3]; rw [jmkRun_cons, e4]; rfl
  · unfold osStream
    rw [jmkRun_cons, jmkStep_th_press]
    rw [jmkRun_cons, e2]; rw [jmkRun_cons, e3]; rw [jmkRun_cons, e4]; rfl

/-- Witness for C5: CAPITAL tap at 0/50 ms, re-press at 100 ms (within the
120 ms quick-tap window), held until 10000 ms: four ESCAPE events. -/
theorem c5_quick_tap_witness :
    osStream (thInit 20 ⟨.send 27, .mod 162, 200, 120⟩)
      [⟨20, true, false, 0⟩, ⟨20, false, false, 50⟩,
       ⟨20, true, false, 100⟩, ⟨20, false, false, 10000⟩] =
      [(27, true), (27, false), (27, true), (27, false)] :=
  (c5_quick_tap 20 27 162 200 120 0 50 100 10000 (by decide) (by decide)).2

/-- Helper: a synthetic event is forwarded unchanged with no state
transition (spec §4.2.1 step 1). -/
theorem jmkStep_synthetic (s : JmkState) (ev : InputEvent)
    (h : ev.synthetic = true) : jmkStep s ev = ⟨s, [], false⟩ := by
  simp [jmkStep, h]

/-- C4: every event carrying the injection sentinel is forwarded unchanged
(no suppression, no injection) and the engine state — layer stack, TapHold
machines, chord tracking — is identical before and after; consequently a
whole trace of synthetic events leaves the state untouched. -/
theorem c4_synthetic_transparency :
    (∀ (s : JmkState) (ev : InputEvent), ev.synthetic = true →
      jmkStep s ev = ⟨s, [], false⟩) ∧
    (∀ (s : JmkState) (evs : List InputEvent),
      (∀ e ∈ evs, e.synthetic = true) →
      jmkRun s evs = (s, evs.map (fun _ => ([], false)))) := by
  refine ⟨jmkStep_synthetic, fun s evs h => ?_⟩
  induction evs with
  | nil => rfl
  | cons e rest ih =>
    have he : e.synthetic = true := h e (by simp)
    have hr : ∀ x ∈ rest, x.synthetic = true := fun x hx => h x (by simp [hx])
    simp [jmkRun, jmkStep_synthetic s e he, ih hr]

/-- Witness for C4: a synthetic ESCAPE press against an engine holding a
pending TapHold machine is forwarded and leaves the state untouched. -/
theorem c4_synthetic_transparency_witness :
    jmkRun (thAt 20 ⟨.send 27, .mod 162, 200, 120⟩ (.pending 0) [])
      [⟨27, true, true, 10⟩] =
      (thAt 20 ⟨.send 27, .mod 162, 200, 120⟩ (.pending 0) [],
        [([], false)]) :=
  c4_synthetic_transparency.2
    (thAt 20 ⟨.send 27, .mod 162, 200, 120⟩ (.pending 0) [])
    [⟨27, true, true, 10⟩] (by decide)

/-- C3: when, after layer resolution of a press, the depressed key set
equals a registered chord, the engine fires exactly once — it injects
releases for the depressed chord keys other than the trigger, then the
synthetic target chord, suppresses the triggering press and records the
chord; while the chord is recorded (no constituent released yet) an
equal match does not fire again.  Concretely (scenario S5), with the
registered hotkey Win+q → LAlt+F4, the trace WIN-down, Q-down forwards
WIN and injects WIN-up, LALT-down, F4-down, F4-up, LALT-up while
suppressing Q, and an immediately repeated Q-down injects nothing. -/
theorem c3_hotkey_chord :
    (∀ (s : JmkState) (hk : Hotkey) (vks : List VKey) (k : VKey) (t : Nat),
      s.taps = [] →
      stackLookup s.layers s.stack k = none →
      findChord s.hotkeys (insertKey k s.pressed) = some hk →
      s.firedChord ≠ some hk.chord →
      hk.action = .comb vks →
      jmkStep s ⟨k, true, false, t⟩ =
        ⟨{ s with
             pressed := insertKey k s.pressed
             firedChord := some hk.chord },
          (hk.chord.filter (fun x => x ≠ k)).map (fun x => (x, false)) ++
            combEvents vks,
          true⟩) ∧
    (∀ (s : JmkState) (hk : Hotkey) (k : VKey) (t : Nat),
      s.taps = [] →
      stackLookup s.layers s.stack k = none →
      findChord s.hotkeys (insertKey k s.pressed) = some hk →
      s.firedChord = some hk.chord →
      jmkStep s ⟨k, true, false, t⟩ =
        ⟨{ s with pressed := insertKey k s.pressed }, [], false⟩) ∧
    (jmkRun winQState
      [⟨91, true, false, 0⟩, ⟨81, true, false, 10⟩, ⟨81, true, false, 20⟩]).2 =
      [([], false),
       ([(91, false), (164, true), (115, true), (115, false), (164, false)], true),
       ([], false)] := by
  refine ⟨fun s hk vks k t htaps hbind hfind hnf hact => ?_,
    fun s hk k t htaps hbind hfind hf => ?_, by decide⟩
  · simp [jmkStep, processTimers, tickTaps, commitOtherPending, htaps, hbind,
      chordCheck, hfind, hnf, fireHotkey, actionEvents, hact]
  · simp [jmkStep, processTimers, tickTaps, commitOtherPending, htaps, hbind,
      chordCheck, hfind, hf]

/-- Witness for C3: the general firing rule applied to the concrete
Win+q engine after WIN is already depressed — pressing Q (81) injects the
WIN (91) release followed by the LAlt+F4 burst and suppresses Q. -/
theorem c3_hotkey_chord_witness :
    jmkStep { winQState with pressed := [91] } ⟨81, true, false, 10⟩ =
      ⟨{ winQState with
          pressed := [91, 81]
          firedChord := some winQHotkey.chord },
        [(91, false), (164, true), (115, true), (115, false), (164, false)],
        true⟩ := by
  have h := c3_hotkey_chord.1 { winQState with pressed := [91] } winQHotkey
    [164, 115] 81 10 (by decide) (by decide) (by decide) (by decide) (by decide)
  simpa [winQState, winQHotkey, insertKey, combEvents] using h

/-- The claim of C9, formalised: every `term` threshold value appearing in
the configuration scripts is an unsigned integer (which, with the value
read as a count of milliseconds, is what "term_ms: uint" asserts). -/
def c9ClaimStatement : Prop :=
  ∀ v ∈ configuredTermValues, ∃ n : Nat, v = (n : ℚ)

/-- Counterexample to C9 as stated: the configuration passes
`term=0.4` (src/unnamed/part_005 line 40), and 0.4 is not an unsigned
integer in any unit in which it is read — the thresholds are fractional
(they are second-denominated floats), not uint milliseconds. -/
theorem c9_counterexample : ¬ c9ClaimStatement := by
  intro hcl
  obtain ⟨n, hn⟩ := hcl 0.4 (by simp [configuredTermValues])
  have h1 : (0.4 : ℚ) < 1 := by norm_num
  have h2 : (0 : ℚ) < 0.4 := by norm_num
  rw [hn] at h1 h2
  have hpos : 0 < n := by exact_mod_cast h2
  have hone : (1 : ℚ) ≤ (n : ℚ) := by exact_mod_cast hpos
  linarith

/-- C9 as amended: the TapHold thresholds in the configuration are
positive fractional second quantities whose product with 1000 is a whole
number of milliseconds (0.4 s = 400 ms, 0.5 s = 500 ms), and the TapHold
machine is driven by the single monotonic event clock: from PENDING the
hold commits exactly when term milliseconds have elapsed since the
physical press, judged purely from event timestamps, and before that the
timers change nothing. -/
theorem c9_thresholds_seconds :
    (∀ v ∈ configuredTermValues, 0 < v ∧ ∃ n : Nat, v * 1000 = (n : ℚ)) ∧
    (∀ (s : JmkState) (vk : VKey) (th : TapHold) (t0 now : Nat),
      s.taps = [⟨vk, th, .pending t0⟩] →
      (((processTimers now s).1.taps = [⟨vk, th, .held⟩]) ↔
        t0 + th.term ≤ now) ∧
      (¬ t0 + th.term ≤ now →
        (processTimers now s).1.taps = s.taps ∧ (processTimers now s).2 = [])) := by
  constructor
  · intro v hv
    simp only [configuredTermValues, List.mem_cons, List.not_mem_nil,
      or_false] at hv
    rcases hv with h | h <;> subst h
    · exact ⟨by norm_num, 400, by norm_num⟩
    · exact ⟨by norm_num, 500, by norm_num⟩
  · intro s vk th t0 now htaps
    constructor
    · by_cases hc : t0 + th.term ≤ now
      · simp [processTimers, tickTaps, tickEntry, holdCommit, htaps, hc]
      · simp [processTimers, tickTaps, tickEntry, holdCommit, htaps, hc]
    · intro hc
      simp [processTimers, tickTaps, tickEntry, holdCommit, htaps, hc]

/-- Witness for C9 amended: the configured value 0.4 is positive and
equals 400 ms, and a machine pending since 0 ms with term 200 has
committed the hold when the clock reads 200 ms. -/
theorem c9_thresholds_seconds_witness :
    (0 < (0.4 : ℚ) ∧ ∃ n : Nat, (0.4 : ℚ) * 1000 = (n : ℚ)) ∧
    ((processTimers 200 (thAt 20 ⟨.send 27, .mod 162, 200, 120⟩
        (.pending 0) [])).1.taps =
      [⟨20, ⟨.send 27, .mod 162, 200, 120⟩, .held⟩]) :=
  ⟨c9_thresholds_seconds.1 0.4 (by simp [configuredTermValues]),
    ((c9_thresholds_seconds.2 (thAt 20 ⟨.send 27, .mod 162, 200, 120⟩
      (.pending 0) []) 20 ⟨.send 27, .mod 162, 200, 120⟩ 0 200 rfl).1).mpr
      (by decide)⟩

/-- Helper: the dwindle tiler returns exactly one rectangle per window. -/
theorem dwindle_layout_tiler_length :
    ∀ (n : Nat) (r : Rect), (dwindle_layout_tiler r n).length = n := by
  intro n
  induction n using Nat.strong_induction_on with
  | _ n ih =>
    match n with
    | 0 => intro r; rfl
    | 1 => intro r; rfl
    | Nat.succ (Nat.succ m) =>
      intro r
      simp only [dwindle_layout_tiler]
      split <;> simp [ih (m + 1) (by omega)]

/-- C6: the dwindle tiler is a pure function of the workarea and window
count which yields one rectangle per window; with at least two windows it
splits the dominant axis in half, hands the first window the left half
(the top half in portrait orientation) and recurses on the remaining
half; on a 1920x1080 landscape workarea with three windows and no gap it
yields exactly (0,0,960,1080), (960,0,960,540), (960,540,960,540). -/
theorem c6_dwindle_tiler :
    (∀ (r : Rect) (n : Nat), (dwindle_layout_tiler r n).length = n) ∧
    (∀ (r : Rect) (n : Nat), r.h ≤ r.w →
      dwindle_layout_tiler r (n + 2) =
        ⟨r.x, r.y, r.w / 2, r.h⟩ ::
          dwindle_layout_tiler ⟨r.x + r.w / 2, r.y, r.w - r.w / 2, r.h⟩ (n + 1)) ∧
    (∀ (r : Rect) (n : Nat), r.w < r.h →
      dwindle_layout_tiler r (n + 2) =
        ⟨r.x, r.y, r.w, r.h / 2⟩ ::
          dwindle_layout_tiler ⟨r.x, r.y + r.h / 2, r.w, r.h - r.h / 2⟩ (n + 1)) ∧
    dwindle_layout_tiler ⟨0, 0, 1920, 1080⟩ 3 =
      [⟨0, 0, 960, 1080⟩, ⟨960, 0, 960, 540⟩, ⟨960, 540, 960, 540⟩] := by
  refine ⟨fun r n => dwindle_layout_tiler_length n r, fun r n h => ?_,
    fun r n h => ?_, by decide⟩
  · have hnot : ¬ (r.w < r.h) := by omega
    simp [dwindle_layout_tiler, hnot]
  · simp [dwindle_layout_tiler, h]

/-- Witness for C6: on the 1920x1080 workarea the first window receives
the left half and the tiler recurses on the right half. -/
theorem c6_dwindle_tiler_witness :
    dwindle_layout_tiler ⟨0, 0, 1920, 1080⟩ 3 =
      ⟨0, 0, 960, 1080⟩ :: dwindle_layout_tiler ⟨960, 0, 960, 1080⟩ 2 :=
  c6_dwindle_tiler.2.1 ⟨0, 0, 1920, 1080⟩ 1 (by decide)

/-- Helper: placing windows never changes which windows participate in
layout (flags are untouched). -/
theorem placeWindows_tilableCount :
    ∀ (ws : List ManagedWindow) (rs : List Rect),
      tilableCount (placeWindows ws rs).1 = tilableCount ws := by
  intro ws
  induction ws with
  | nil => intro rs; rfl
  | cons w ws ih =>
    intro rs
    by_cases hw : (w.tilable && !w.minimized) = true
    · cases rs with
      | nil =>
        have h0 := ih []
        simp only [tilableCount] at h0
        simp [placeWindows, tilableCount, List.countP_cons, hw, h0]
      | cons rc rs =>
        by_cases hr : w.rect = rc
        · simpa [placeWindows, tilableCount, List.countP_cons, hw, hr]
            using ih rs
        · simpa [placeWindows, tilableCount, List.countP_cons, hw, hr]
            using ih rs
    · simpa [placeWindows, tilableCount, List.countP_cons, hw] using ih rs

/-- Helper: re-placing an already placed windowlist against the same
rectangles issues no OS call and leaves every window where it is. -/
theorem placeWindows_self :
    ∀ (ws : List ManagedWindow) (rs : List Rect),
      placeWindows (placeWindows ws rs).1 rs = ((placeWindows ws rs).1, []) := by
  intro ws
  induction ws with
  | nil => intro rs; rfl
  | cons w ws ih =>
    intro rs
    by_cases hw : (w.tilable && !w.minimized) = true
    · cases rs with
      | nil => simp [placeWindows, hw, ih []]
      | cons rc rs =>
        by_cases hr : w.rect = rc
        · simp [placeWindows, hw, hr, ih rs]
        · simp [placeWindows, hw, hr, ih rs]
    · simp [placeWindows, hw, ih rs]

/-- C7: layout application is idempotent — for every window-manager
windowlist, every tiler and every workarea, applying the layout a second
time to the already laid-out list issues no `setWindowPos` call and
changes no rectangle. -/
theorem c7_layout_idempotent (tiler : Rect → Nat → List Rect) (wa : Rect)
    (ws : List ManagedWindow) :
    applyLayout tiler wa (applyLayout tiler wa ws).1 =
      ((applyLayout tiler wa ws).1, []) := by
  unfold applyLayout
  rw [placeWindows_tilableCount]
  exact placeWindows_self ws (tiler wa (tilableCount ws))

/-! ## Theorems: windowlist bijection infrastructure -/

/-- modifyAt preserves the list length. -/
theorem modifyAt_length (f : α → α) :
    ∀ (l : List α) (i : Nat), (modifyAt f l i).length = l.length := by
  intro l
  induction l with
  | nil => intro i; rfl
  | cons a t ih =>
    intro i
    cases i with
    | zero => rfl
    | succ n => simp [modifyAt, ih n]

/-- Every element of modifyAt is an original element or the image of the
modified one. -/
theorem mem_modifyAt (f : α → α) :
    ∀ (l : List α) (i : Nat) (x : α), x ∈ modifyAt f l i →
      x ∈ l ∨ ∃ a ∈ l, x = f a := by
  intro l
  induction l with
  | nil => intro i x hx; cases hx
  | cons a t ih =>
    intro i x hx
    cases i with
    | zero =>
      rcases List.mem_cons.mp hx with h | h
      · exact Or.inr ⟨a, List.mem_cons_self a t, h⟩
      · exact Or.inl (List.mem_cons_of_mem a h)
    | succ n =>
      rcases List.mem_cons.mp hx with h | h
      · exact Or.inl (h ▸ List.mem_cons_self a t)
      · rcases ih n x h with h2 | ⟨b, hb, hxb⟩
        · exact Or.inl (List.mem_cons_of_mem a h2)
        · exact Or.inr ⟨b, List.mem_cons_of_mem a hb, hxb⟩

/-- modifyAt at one index leaves lookups at other indices alone. -/
theorem modifyAt_get?_ne (f : α → α) :
    ∀ (l : List α) (i j : Nat), i ≠ j →
      (modifyAt f l i).get? j = l.get? j := by
  intro l
  induction l with
  | nil => intro i j _; rfl
  | cons a t ih =>
    intro i j hij
    cases i with
    | zero =>
      cases j with
      | zero => exact absurd rfl hij
      | succ m => rfl
    | succ n =>
      cases j with
      | zero => rfl
      | succ m => simpa [modifyAt] using ih n m (by omega)

/-- Counting handles through a flattened map is unchanged when the
modified element keeps its handle multiset. -/
theorem count_flatten_map_modifyAt_eq (g : α → List Nat) (f : α → α) (b : Nat)
    (h : ∀ a, ((g (f a)).count b) = (g a).count b) :
    ∀ (l : List α) (i : Nat),
      (((modifyAt f l i).map g).flatten).count b =
        ((l.map g).flatten).count b := by
  intro l
  induction l with
  | nil => intro i; rfl
  | cons a t ih =>
    intro i
    cases i with
    | zero => simp [modifyAt, List.count_append, h a]
    | succ n => simp [modifyAt, List.count_append, ih n]

/-- Counting handles through a flattened map: the modified element trades
its old contribution for its new one. -/
theorem count_flatten_map_modifyAt_add (g : α → List Nat) (f : α → α) (b : Nat) :
    ∀ (l : List α) (i : Nat) (a : α), l.get? i = some a →
      (((modifyAt f l i).map g).flatten).count b + ((g a).count b) =
        ((l.map g).flatten).count b + ((g (f a)).count b) := by
  intro l
  induction l with
  | nil => intro i a ha; cases ha
  | cons x t ih =>
    intro i a ha
    cases i with
    | zero =>
      have hax : x = a := by simpa using ha
      subst hax
      simp [modifyAt, List.count_append]
      omega
    | succ n =>
      have ha' : t.get? n = some a := by simpa using ha
      have := ih n a ha'
      simp [modifyAt, List.count_append]
      omega

/-- Erasing the element at a known position removes exactly its handle. -/
theorem count_map_eraseIdx (g : α → Nat) :
    ∀ (l : List α) (k : Nat) (a : α), l.get? k = some a → ∀ (b : Nat),
      (((l.eraseIdx k).map g).count b) + (if g a = b then 1 else 0) =
        ((l.map g).count b) := by
  intro l
  induction l with
  | nil => intro k a ha; cases ha
  | cons x t ih =>
    intro k a ha b
    cases k with
    | zero =>
      have hax : x = a := by simpa using ha
      subst hax
      simp [List.eraseIdx, List.count_cons]
    | succ n =>
      have ha' : t.get? n = some a := by simpa using ha
      have := ih n a ha' b
      simp [List.eraseIdx, List.count_cons]
      omega

/-- Swapping adjacent elements is a permutation. -/
theorem swapAdj_perm : ∀ (l : List α) (i : Nat), (swapAdj l i).Perm l := by
  intro l
  induction l with
  | nil => intro i; simp [swapAdj]
  | cons a t ih =>
    intro i
    cases i with
    | zero =>
      cases t with
      | nil => simp [swapAdj]
      | cons b t2 => exact List.Perm.swap a b t2
    | succ n =>
      cases t with
      | nil => simp [swapAdj]
      | cons b t2 => exact List.Perm.cons a (ih n)

/-- Pulling the element at a position to the front while pushing the head
down is a permutation. -/
theorem set_cons_perm :
    ∀ (t : List α) (i : Nat) (a b : α), t.get? i = some b →
      (b :: t.set i a).Perm (a :: t) := by
  intro t
  induction t with
  | nil => intro i a b hb; cases hb
  | cons x t2 ih =>
    intro i a b hb
    cases i with
    | zero =>
      have hbx : x = b := by simpa using hb
      subst hbx
      exact List.Perm.swap a x t2
    | succ n =>
      have hb' : t2.get? n = some b := by simpa using hb
      exact ((List.Perm.swap x b (t2.set n a)).trans
        ((ih n a b hb').cons x)).trans (List.Perm.swap a x t2)

/-- swapWithHead is a permutation. -/
theorem swapWithHead_perm : ∀ (l : List α) (i : Nat), (swapWithHead l i).Perm l := by
  intro l i
  match l, i with
  | [], _ => simp [swapWithHead]
  | a :: t, 0 => simp [swapWithHead]
  | a :: t, i + 1 =>
    simp only [swapWithHead]
    cases hb : t.get? i with
    | none => exact List.Perm.refl _
    | some b => exact set_cons_perm t i a b hb

/-- Mapping over modifyAt collapses when the map ignores the change. -/
theorem map_modifyAt_eq (g : α → β) (f : α → α) (h : ∀ a, g (f a) = g a) :
    ∀ (l : List α) (i : Nat), (modifyAt f l i).map g = l.map g := by
  intro l
  induction l with
  | nil => intro i; rfl
  | cons a t ih =>
    intro i
    cases i with
    | zero => simp [modifyAt, h a]
    | succ n => simp [modifyAt, ih n]

/-- Counts only decrease along a pointwise sublist of contributions. -/
theorem count_flatten_map_le (g g2 : α → List Nat)
    (h : ∀ (a : α) (b : Nat), ((g2 a).count b) ≤ (g a).count b) :
    ∀ (l : List α) (b : Nat),
      ((l.map g2).flatten).count b ≤ ((l.map g).flatten).count b := by
  intro l
  induction l with
  | nil => intro b; exact Nat.le_refl 0
  | cons a t ih =>
    intro b
    simp only [List.map_cons, List.flatten_cons, List.count_append]
    exact Nat.add_le_add (h a b) (ih b)

/-- Counting handles is unchanged by a workspace transformation of the
active workspace that keeps each handle count. -/
theorem count_allHandles_maw (s : WmState) (f : Workspace → Workspace) (b : Nat)
    (h : ∀ ws, ((wsHandles (f ws)).count b) = (wsHandles ws).count b) :
    (allHandles (modifyActiveWorkspace s f)).count b = (allHandles s).count b := by
  have hm : ∀ m : Monitor,
      ((monHandles { m with
          workspaces := modifyAt f m.workspaces m.activeWs }).count b) =
        (monHandles m).count b := by
    intro m
    simp only [monHandles]
    exact count_flatten_map_modifyAt_eq wsHandles f b h m.workspaces m.activeWs
  simp only [allHandles, modifyActiveWorkspace]
  exact count_flatten_map_modifyAt_eq monHandles _ b hm s.monitors s.activeMon

/-- The windowlist commands that permute or relabel the active workspace
keep every handle count. -/
theorem wsCommand_count (ws : Workspace) (b : Nat) :
    ((wsHandles (nextWindowWs ws)).count b = (wsHandles ws).count b) ∧
    ((wsHandles (prevWindowWs ws)).count b = (wsHandles ws).count b) ∧
    ((wsHandles (swapNextWs ws)).count b = (wsHandles ws).count b) ∧
    ((wsHandles (swapPrevWs ws)).count b = (wsHandles ws).count b) ∧
    ((wsHandles (setMasterWs ws)).count b = (wsHandles ws).count b) ∧
    ((wsHandles (rollNextWs ws)).count b = (wsHandles ws).count b) ∧
    ((wsHandles (rollPrevWs ws)).count b = (wsHandles ws).count b) ∧
    ((wsHandles (toggleTilableWs ws)).count b = (wsHandles ws).count b) := by
  refine ⟨?_, ?_, ?_, ?_, ?_, ?_, ?_, ?_⟩
  · unfold nextWindowWs; split <;> rfl
  · unfold prevWindowWs; split <;> rfl
  · unfold swapNextWs wsHandles; split
    · exact ((swapAdj_perm ws.windows ws.activeIdx).map
        (fun w => w.handle)).count_eq b
    · rfl
  · unfold swapPrevWs wsHandles; split
    · exact ((swapAdj_perm ws.windows (ws.activeIdx - 1)).map
        (fun w => w.handle)).count_eq b
    · rfl
  · unfold setMasterWs wsHandles; split
    · exact ((swapAdj_perm ws.windows 0).map (fun w => w.handle)).count_eq b
    · exact ((swapWithHead_perm ws.windows ws.activeIdx).map
        (fun w => w.handle)).count_eq b
  · exact ((List.rotate_perm ws.windows 1).map (fun w => w.handle)).count_eq b
  · exact ((List.rotate_perm ws.windows (ws.windows.length - 1)).map
      (fun w => w.handle)).count_eq b
  · unfold toggleTilableWs wsHandles
    exact congrArg (List.count b)
      (map_modifyAt_eq (fun w => w.handle)
        (fun w => { w with tilable := !w.tilable }) (fun a => rfl)
        ws.windows ws.activeIdx)

/-- Moving the active window to another workspace of the same monitor
keeps every handle count of the monitor. -/
theorem monHandles_count_moveToWs (m : Monitor) (j : Nat) (b : Nat) :
    (monHandles (moveWindowToWorkspace m j)).count b = (monHandles m).count b := by
  by_cases hj : j = m.activeWs
  · simp [moveWindowToWorkspace, hj]
  · rw [moveWindowToWorkspace]
    rw [if_neg hj]
    split
    · rfl
    next ws hws =>
      split
      · rfl
      next w hw =>
        by_cases hlen : j < m.workspaces.length
        · rw [if_pos hlen]
          simp only [monHandles]
          have hjne : m.activeWs ≠ j := fun hh => hj hh.symm
          obtain ⟨wsj, hWj⟩ : ∃ wsj, m.workspaces.get? j = some wsj := by
            cases hx : m.workspaces.get? j with
            | none => exact absurd (List.get?_eq_none.mp hx) (by omega)
            | some wsj => exact ⟨wsj, rfl⟩
          have hW1j : (modifyAt (fun x =>
              { x with windows := x.windows.eraseIdx x.activeIdx,
                       activeIdx := 0 }) m.workspaces m.activeWs).get? j =
              some wsj := by
            rw [modifyAt_get?_ne _ m.workspaces m.activeWs j hjne]; exact hWj
          have E1 := count_flatten_map_modifyAt_add wsHandles (fun x =>
            { x with windows := x.windows.eraseIdx x.activeIdx, activeIdx := 0 })
            b m.workspaces m.activeWs ws hws
          have E2 : (((modifyAt (fun x => { x with windows := x.windows ++ [w] })
                (modifyAt (fun x =>
                  { x with windows := x.windows.eraseIdx x.activeIdx,
                           activeIdx := 0 }) m.workspaces m.activeWs) j).map
                wsHandles).flatten).count b + ((wsHandles wsj).count b) =
              (((modifyAt (fun x =>
                  { x with windows := x.windows.eraseIdx x.activeIdx,
                           activeIdx := 0 }) m.workspaces m.activeWs).map
                wsHandles).flatten).count b +
                ((wsHandles { wsj with windows := wsj.windows ++ [w] }).count b) :=
            count_flatten_map_modifyAt_add wsHandles (fun x =>
              { x with windows := x.windows ++ [w] }) b
              (modifyAt (fun x =>
                { x with windows := x.windows.eraseIdx x.activeIdx,
                         activeIdx := 0 }) m.workspaces m.activeWs) j wsj hW1j
          have E3 : (wsHandles { wsj with windows := wsj.windows ++ [w] }).count b
              = (wsHandles wsj).count b + (if w.handle = b then 1 else 0) := by
            simp [wsHandles, List.count_append, List.count_cons]
          have E4 := count_map_eraseIdx (fun w => w.handle) ws.windows
            ws.activeIdx w hw b
          simp only [wsHandles] at E1 E2 E3 E4 ⊢
          omega
        · rw [if_neg hlen]

/-- Appending a window to the active workspace of a monitor adds exactly
its handle. -/
theorem monHandles_count_append (m : Monitor) (w : ManagedWindow) (b : Nat)
    (hws : m.activeWs < m.workspaces.length) :
    (monHandles (appendWindowToActive m w)).count b
      = (monHandles m).count b + (if w.handle = b then 1 else 0) := by
  obtain ⟨ws, hWj⟩ : ∃ ws, m.workspaces.get? m.activeWs = some ws := by
    cases hx : m.workspaces.get? m.activeWs with
    | none => exact absurd (List.get?_eq_none.mp hx) (by omega)
    | some ws => exact ⟨ws, rfl⟩
  have E1 : (((modifyAt (fun x => { x with windows := x.windows ++ [w] })
        m.workspaces m.activeWs).map wsHandles).flatten).count b +
        ((wsHandles ws).count b) =
      ((m.workspaces.map wsHandles).flatten).count b +
        ((wsHandles { ws with windows := ws.windows ++ [w] }).count b) :=
    count_flatten_map_modifyAt_add wsHandles (fun x =>
      { x with windows := x.windows ++ [w] }) b m.workspaces m.activeWs ws hWj
  have E2 : (wsHandles { ws with windows := ws.windows ++ [w] }).count b
      = (wsHandles ws).count b + (if w.handle = b then 1 else 0) := by
    simp [wsHandles, List.count_append, List.count_cons]
  simp only [appendWindowToActive, monHandles]
  omega

/-- Removing the active window of a monitor removes exactly its handle. -/
theorem monHandles_count_remove (m : Monitor) (w : ManagedWindow) (b : Nat)
    (hg : grabActiveWindow m = some w) :
    (monHandles (removeActiveWindow m)).count b + (if w.handle = b then 1 else 0)
      = (monHandles m).count b := by
  unfold grabActiveWindow at hg
  cases hws : m.workspaces.get? m.activeWs with
  | none => rw [hws] at hg; cases hg
  | some ws =>
    rw [hws] at hg
    simp only [Option.some_bind] at hg
    have E1 := count_flatten_map_modifyAt_add wsHandles (fun x =>
      { x with windows := x.windows.eraseIdx x.activeIdx, activeIdx := 0 })
      b m.workspaces m.activeWs ws hws
    have E4 := count_map_eraseIdx (fun w => w.handle) ws.windows
      ws.activeIdx w hg b
    simp only [removeActiveWindow, monHandles]
    simp only [wsHandles] at E1 E4 ⊢
    omega

/-- Moving the active window to another monitor keeps every handle count
of the whole state. -/
theorem allHandles_count_moveToMon (s : WmState) (dst : Nat) (b : Nat)
    (hwf : wfState s) :
    (allHandles (moveWindowToMonitor s dst)).count b = (allHandles s).count b := by
  by_cases hd : dst = s.activeMon
  · simp [moveWindowToMonitor, hd]
  · rw [moveWindowToMonitor]
    rw [if_neg hd]
    split
    · rfl
    next m hm =>
      split
      · rfl
      next w hg =>
        by_cases hlen : dst < s.monitors.length
        · rw [if_pos hlen]
          simp only [allHandles]
          have hdne : s.activeMon ≠ dst := fun hh => hd hh.symm
          obtain ⟨md, hMd⟩ : ∃ md, s.monitors.get? dst = some md := by
            cases hx : s.monitors.get? dst with
            | none => exact absurd (List.get?_eq_none.mp hx) (by omega)
            | some md => exact ⟨md, rfl⟩
          have hM1d : (modifyAt removeActiveWindow s.monitors s.activeMon).get? dst
              = some md := by
            rw [modifyAt_get?_ne _ s.monitors s.activeMon dst hdne]; exact hMd
          have E1 := count_flatten_map_modifyAt_add monHandles
            removeActiveWindow b s.monitors s.activeMon m hm
          have E2 : (((modifyAt (fun mm => appendWindowToActive mm w)
                (modifyAt removeActiveWindow s.monitors s.activeMon) dst).map
                monHandles).flatten).count b + ((monHandles md).count b) =
              (((modifyAt removeActiveWindow s.monitors s.activeMon).map
                monHandles).flatten).count b +
                ((monHandles (appendWindowToActive md w)).count b) :=
            count_flatten_map_modifyAt_add monHandles
              (fun mm => appendWindowToActive mm w) b
              (modifyAt removeActiveWindow s.monitors s.activeMon) dst md hM1d
          have E3 := monHandles_count_remove m w b hg
          have hmd : md.activeWs < md.workspaces.length :=
            hwf.2 md (List.get?_mem hMd)
          have E4 := monHandles_count_append md w b hmd
          omega
        · rw [if_neg hlen]

/-- Recording a fresh window adds exactly its handle. -/
theorem allHandles_count_create (s : WmState) (h b : Nat)
    (hwf : wfState s) (hfresh : h ∉ allHandles s) :
    (allHandles (createWindow s h)).count b
      = (allHandles s).count b + (if h = b then 1 else 0) := by
  rw [createWindow, if_neg hfresh]
  simp only [allHandles]
  have ham : s.activeMon < s.monitors.length := hwf.1
  obtain ⟨m, hm⟩ : ∃ m, s.monitors.get? s.activeMon = some m := by
    cases hx : s.monitors.get? s.activeMon with
    | none => exact absurd (List.get?_eq_none.mp hx) (by omega)
    | some m => exact ⟨m, rfl⟩
  have E1 : (((modifyAt
        (fun m => appendWindowToActive m ⟨h, ⟨0, 0, 0, 0⟩, true, false⟩)
        s.monitors s.activeMon).map monHandles).flatten).count b +
        ((monHandles m).count b) =
      ((s.monitors.map monHandles).flatten).count b +
        ((monHandles (appendWindowToActive m
          ⟨h, ⟨0, 0, 0, 0⟩, true, false⟩)).count b) :=
    count_flatten_map_modifyAt_add monHandles
      (fun m => appendWindowToActive m ⟨h, ⟨0, 0, 0, 0⟩, true, false⟩) b
      s.monitors s.activeMon m hm
  have hmd : m.activeWs < m.workspaces.length := hwf.2 m (List.get?_mem hm)
  have E2 : (monHandles (appendWindowToActive m
        ⟨h, ⟨0, 0, 0, 0⟩, true, false⟩)).count b
      = (monHandles m).count b + (if h = b then 1 else 0) :=
    monHandles_count_append m ⟨h, ⟨0, 0, 0, 0⟩, true, false⟩ b hmd
  omega

/-- Destruction never increases a handle count. -/
theorem allHandles_count_destroy_le (s : WmState) (h b : Nat) :
    (allHandles (destroyWindow s h)).count b ≤ (allHandles s).count b := by
  simp only [destroyWindow, allHandles, List.map_map]
  refine count_flatten_map_le monHandles _ (fun m b2 => ?_) s.monitors b
  simp only [Function.comp, monHandles, List.map_map]
  refine count_flatten_map_le wsHandles _ (fun ws b3 => ?_) m.workspaces b2
  simp only [Function.comp, wsHandles]
  exact ((ws.windows.filter_sublist).map (fun w => w.handle)).count_le b3

/-- Well-formedness survives a transformation of the active workspace. -/
theorem wfState_maw (s : WmState) (f : Workspace → Workspace)
    (hwf : wfState s) : wfState (modifyActiveWorkspace s f) := by
  refine ⟨?_, ?_⟩
  · simpa [modifyActiveWorkspace, modifyAt_length] using hwf.1
  · intro m hm
    simp only [modifyActiveWorkspace] at hm
    rcases mem_modifyAt _ s.monitors s.activeMon m hm with h | ⟨a, ha, hxa⟩
    · exact hwf.2 m h
    · subst hxa
      simpa [modifyAt_length] using hwf.2 a ha

/-- Well-formedness survives a cross-monitor window move. -/
theorem wfState_moveToMon (s : WmState) (dst : Nat) (hwf : wfState s) :
    wfState (moveWindowToMonitor s dst) := by
  by_cases hd : dst = s.activeMon
  · simpa [moveWindowToMonitor, hd] using hwf
  · rw [moveWindowToMonitor, if_neg hd]
    split
    · exact hwf
    next m hm =>
      split
      · exact hwf
      next w hg =>
        by_cases hl : dst < s.monitors.length
        · rw [if_pos hl]
          refine ⟨by simpa [modifyAt_length] using hwf.1, ?_⟩
          intro x hx
          rcases mem_modifyAt _ _ dst x hx with h1 | ⟨a, ha1, hxa⟩
          · rcases mem_modifyAt _ s.monitors s.activeMon x h1 with
              h2 | ⟨a2, ha2, hxa2⟩
            · exact hwf.2 x h2
            · subst hxa2
              simpa [removeActiveWindow, modifyAt_length] using hwf.2 a2 ha2
          · subst hxa
            rcases mem_modifyAt _ s.monitors s.activeMon a ha1 with
              h2 | ⟨a2, ha2, hxa2⟩
            · simpa [appendWindowToActive, modifyAt_length] using hwf.2 a h2
            · subst hxa2
              simpa [appendWindowToActive, removeActiveWindow, modifyAt_length]
                using hwf.2 a2 ha2
        · rw [if_neg hl]; exact hwf

/-- Every command and window event preserves the structural
well-formedness of the state. -/
theorem wmStep_wf (s : WmState) (c : WmCmd) (hwf : wfState s) :
    wfState (wmStep s c) := by
  have hlen0 : 0 < s.monitors.length := Nat.lt_of_le_of_lt (Nat.zero_le _) hwf.1
  have hmax : max 1 s.monitors.length = s.monitors.length :=
    Nat.max_eq_right hlen0
  cases c with
  | nextWindow => exact wfState_maw s _ hwf
  | prevWindow => exact wfState_maw s _ hwf
  | swapNext => exact wfState_maw s _ hwf
  | swapPrev => exact wfState_maw s _ hwf
  | setMaster => exact wfState_maw s _ hwf
  | rollNext => exact wfState_maw s _ hwf
  | rollPrev => exact wfState_maw s _ hwf
  | toggleTilable => exact wfState_maw s _ hwf
  | switchWs i =>
    refine ⟨by simpa [wmStep, switchToWorkspace, modifyAt_length] using hwf.1, ?_⟩
    intro m hm
    simp only [wmStep, switchToWorkspace] at hm
    rcases mem_modifyAt _ s.monitors s.activeMon m hm with h | ⟨a, ha, hxa⟩
    · exact hwf.2 m h
    · subst hxa
      by_cases hi : i < a.workspaces.length
      · simp [hi]
      · simpa [hi] using hwf.2 a ha
  | moveToWs j =>
    refine ⟨by simpa [wmStep, modifyAt_length] using hwf.1, ?_⟩
    intro m hm
    simp only [wmStep] at hm
    rcases mem_modifyAt _ s.monitors s.activeMon m hm with h | ⟨a, ha, hxa⟩
    · exact hwf.2 m h
    · subst hxa
      have ha2 := hwf.2 a ha
      by_cases hj : j = a.activeWs
      · simpa [moveWindowToWorkspace, hj] using ha2
      · rw [moveWindowToWorkspace, if_neg hj]
        split
        · exact ha2
        next ws hws =>
          split
          · exact ha2
          next w hw =>
            by_cases hl : j < a.workspaces.length
            · rw [if_pos hl]
              simpa [modifyAt_length] using ha2
            · rw [if_neg hl]; exact ha2
  | nextMonitor =>
    refine ⟨?_, hwf.2⟩
    simp only [wmStep, nextMonitorIdx, hmax]
    exact Nat.mod_lt _ hlen0
  | prevMonitor =>
    refine ⟨?_, hwf.2⟩
    simp only [wmStep, prevMonitorIdx, hmax]
    exact Nat.mod_lt _ hlen0
  | moveToNextMonitor => exact wfState_moveToMon s _ hwf
  | moveToPrevMonitor => exact wfState_moveToMon s _ hwf
  | arrangeAllMonitors => exact hwf
  | winCreated h =>
    by_cases hmem : h ∈ allHandles s
    · simpa [wmStep, createWindow, hmem] using hwf
    · refine ⟨by simpa [wmStep, createWindow, hmem, modifyAt_length]
        using hwf.1, ?_⟩
      intro m hm
      simp only [wmStep, createWindow, hmem, if_neg] at hm
      rcases mem_modifyAt _ s.monitors s.activeMon m hm with h2 | ⟨a, ha, hxa⟩
      · exact hwf.2 m h2
      · subst hxa
        simpa [appendWindowToActive, modifyAt_length] using hwf.2 a ha
  | winDestroyed h =>
    refine ⟨by simpa [wmStep, destroyWindow] using hwf.1, ?_⟩
    intro m hm
    simp only [wmStep, destroyWindow, List.mem_map] at hm
    obtain ⟨a, ha, hxa⟩ := hm
    subst hxa
    simpa using hwf.2 a ha

/-- One step never pushes a handle count above max(previous count, 1). -/
theorem wmStep_count_le (s : WmState) (c : WmCmd) (b : Nat) (hwf : wfState s) :
    (allHandles (wmStep s c)).count b ≤ max ((allHandles s).count b) 1 := by
  cases c with
  | nextWindow =>
    rw [show wmStep s .nextWindow = modifyActiveWorkspace s nextWindowWs from rfl,
      count_allHandles_maw s _ b (fun ws => (wsCommand_count ws b).1)]
    exact Nat.le_max_left _ _
  | prevWindow =>
    rw [show wmStep s .prevWindow = modifyActiveWorkspace s prevWindowWs from rfl,
      count_allHandles_maw s _ b (fun ws => (wsCommand_count ws b).2.1)]
    exact Nat.le_max_left _ _
  | swapNext =>
    rw [show wmStep s .swapNext = modifyActiveWorkspace s swapNextWs from rfl,
      count_allHandles_maw s _ b (fun ws => (wsCommand_count ws b).2.2.1)]
    exact Nat.le_max_left _ _
  | swapPrev =>
    rw [show wmStep s .swapPrev = modifyActiveWorkspace s swapPrevWs from rfl,
      count_allHandles_maw s _ b (fun ws => (wsCommand_count ws b).2.2.2.1)]
    exact Nat.le_max_left _ _
  | setMaster =>
    rw [show wmStep s .setMaster = modifyActiveWorkspace s setMasterWs from rfl,
      count_allHandles_maw s _ b (fun ws => (wsCommand_count ws b).2.2.2.2.1)]
    exact Nat.le_max_left _ _
  | rollNext =>
    rw [show wmStep s .rollNext = modifyActiveWorkspace s rollNextWs from rfl,
      count_allHandles_maw s _ b (fun ws => (wsCommand_count ws b).2.2.2.2.2.1)]
    exact Nat.le_max_left _ _
  | rollPrev =>
    rw [show wmStep s .rollPrev = modifyActiveWorkspace s rollPrevWs from rfl,
      count_allHandles_maw s _ b
        (fun ws => (wsCommand_count ws b).2.2.2.2.2.2.1)]
    exact Nat.le_max_left _ _
  | toggleTilable =>
    rw [show wmStep s .toggleTilable = modifyActiveWorkspace s toggleTilableWs
        from rfl,
      count_allHandles_maw s _ b
        (fun ws => (wsCommand_count ws b).2.2.2.2.2.2.2)]
    exact Nat.le_max_left _ _
  | switchWs i =>
    have heq : (allHandles (switchToWorkspace s i)).count b =
        (allHandles s).count b := by
      simp only [allHandles, switchToWorkspace]
      refine count_flatten_map_modifyAt_eq monHandles _ b (fun m => ?_)
        s.monitors s.activeMon
      by_cases hi : i < m.workspaces.length <;> simp [monHandles, hi]
    rw [show wmStep s (.switchWs i) = switchToWorkspace s i from rfl, heq]
    exact Nat.le_max_left _ _
  | moveToWs j =>
    have heq : (allHandles (wmStep s (.moveToWs j))).count b =
        (allHandles s).count b := by
      simp only [wmStep, allHandles]
      exact count_flatten_map_modifyAt_eq monHandles _ b
        (fun m => monHandles_count_moveToWs m j b) s.monitors s.activeMon
    rw [heq]
    exact Nat.le_max_left _ _
  | nextMonitor => exact Nat.le_max_left _ _
  | prevMonitor => exact Nat.le_max_left _ _
  | moveToNextMonitor =>
    rw [show wmStep s .moveToNextMonitor =
        moveWindowToMonitor s (nextMonitorIdx s) from rfl,
      allHandles_count_moveToMon s _ b hwf]
    exact Nat.le_max_left _ _
  | moveToPrevMonitor =>
    rw [show wmStep s .moveToPrevMonitor =
        moveWindowToMonitor s (prevMonitorIdx s) from rfl,
      allHandles_count_moveToMon s _ b hwf]
    exact Nat.le_max_left _ _
  | arrangeAllMonitors => exact Nat.le_max_left _ _
  | winCreated h =>
    by_cases hmem : h ∈ allHandles s
    · rw [show wmStep s (.winCreated h) = createWindow s h from rfl]
      rw [createWindow, if_pos hmem]
      exact Nat.le_max_left _ _
    · have heq := allHandles_count_create s h b hwf hmem
      rw [show wmStep s (.winCreated h) = createWindow s h from rfl, heq]
      by_cases hb : h = b
      · subst hb
        have hzero : (allHandles s).count h = 0 := List.count_eq_zero.mpr hmem
        simp [hzero]
      · simp only [hb, if_neg, Nat.add_zero]
        exact Nat.le_max_left _ _
  | winDestroyed h =>
    exact Nat.le_trans (allHandles_count_destroy_le s h b) (Nat.le_max_left _ _)

/-- Running any command sequence preserves well-formedness and the
at-most-once property of every handle. -/
theorem wmRun_inv (cmds : List WmCmd) : ∀ (s : WmState), wfState s →
    (∀ b, (allHandles s).count b ≤ 1) →
    wfState (wmRun s cmds) ∧
      ∀ b, (allHandles (wmRun s cmds)).count b ≤ 1 := by
  induction cmds with
  | nil => intro s hwf hc; exact ⟨hwf, hc⟩
  | cons c cs ih =>
    intro s hwf hc
    have hstep := wmStep_wf s c hwf
    refine ih (wmStep s c) hstep (fun b => ?_)
    exact Nat.le_trans (wmStep_count_le s c b hwf)
      (Nat.max_le.mpr ⟨hc b, Nat.le_refl 1⟩)

/-- C8: starting from any well-formed state in which every manageable
window appears in exactly one workspace, after any sequence of WM
commands (window navigation, swaps, set-master, rolls, tilable toggles,
workspace switches and moves, monitor activation and moves, arrange-all)
and window creation or destruction events, every tracked window handle
still appears in exactly one workspace of exactly one monitor. -/
theorem c8_windowlist_bijection (s0 : WmState) (cmds : List WmCmd)
    (hwf : wfState s0) (hnd : (allHandles s0).Nodup) :
    ∀ h ∈ allHandles (wmRun s0 cmds),
      (allHandles (wmRun s0 cmds)).count h = 1 := by
  have hcnt : ∀ b, (allHandles s0).count b ≤ 1 :=
    List.nodup_iff_count_le_one.mp hnd
  obtain ⟨_, hle⟩ := wmRun_inv cmds s0 hwf hcnt
  intro h hmem
  have h1 : 0 < (allHandles (wmRun s0 cmds)).count h :=
    List.count_pos_iff.mpr hmem
  have h2 := hle h
  omega

/-- Witness for C8: a two-monitor state with three windows, run through a
swap, a set-master, a roll, a workspace move, a window creation, a
cross-monitor move, a destruction and a workspace switch — the handle 7
of the created window ends up in exactly one workspace. -/
theorem c8_windowlist_bijection_witness :
    (allHandles (wmRun
      ⟨[⟨[⟨[⟨1, ⟨0, 0, 0, 0⟩, true, false⟩, ⟨2, ⟨0, 0, 0, 0⟩, true, false⟩], 0⟩,
          ⟨[⟨3, ⟨0, 0, 0, 0⟩, true, false⟩], 0⟩], 0⟩,
        ⟨[⟨[], 0⟩], 0⟩], 0⟩
      [.swapNext, .setMaster, .rollNext, .moveToWs 1, .winCreated 7,
       .moveToNextMonitor, .winDestroyed 2, .switchWs 1,
       .nextWindow])).count 7 = 1 :=
  c8_windowlist_bijection
    ⟨[⟨[⟨[⟨1, ⟨0, 0, 0, 0⟩, true, false⟩, ⟨2, ⟨0, 0, 0, 0⟩, true, false⟩], 0⟩,
        ⟨[⟨3, ⟨0, 0, 0, 0⟩, true, false⟩], 0⟩], 0⟩,
      ⟨[⟨[], 0⟩], 0⟩], 0⟩
    [.swapNext, .setMaster, .rollNext, .moveToWs 1, .winCreated 7,
     .moveToNextMonitor, .winDestroyed 2, .switchWs 1, .nextWindow]
    ⟨by decide, by decide⟩ (by decide) 7 (by decide)

end JigsawWM
